import Mathlib

/-!
A shallow embedding of the Cricsheet match-ingestion core
(`src/cricsheet_scraper.py`).  Python values decoded from the match JSON are
modelled by the inductive type `J`; Python `None` and JSON `null` are both
`J.null` (they are the same object in Python).  Functions that can raise a
Python exception are modelled in the `Option` monad, `none` meaning the
exception propagates (the caller in `main` catches it and skips the match,
so an exception means "no rows at all for this match").

Modelling notes, fixed once here:
* Objects are association lists with string keys; the source data is decoded
  JSON, which has no duplicate keys, and every accessor uses the first
  binding (`jFind`).
* JSON numbers appearing in the data in scope are integers; `J` therefore
  has `int` (and `bool`, since Python `bool` is an `int` subtype that
  participates in arithmetic) but no float constructor.  The only float
  arithmetic in the source, `(last_over or 0) + (last_ball or 0) / 6.0`, is
  modelled exactly over `ℚ`.
-/

inductive J where
  | null : J
  | bool (b : Bool) : J
  | int (n : Int) : J
  | str (s : String) : J
  | list (xs : List J) : J
  | obj (kvs : List (String × J)) : J

/-- First binding of key `k` in an association list (Python `d[k]` / `d.get(k)`
on a duplicate-free dict). -/
def jFind (k : String) : List (String × J) → Option J
  | [] => none
  | (k0, v) :: rest => if k0 = k then some v else jFind k rest

/-- Python truthiness of a decoded-JSON value. -/
def jTruthy : J → Bool
  | .null => false
  | .bool b => b
  | .int n => n ≠ 0
  | .str s => s ≠ ""
  | .list xs => !xs.isEmpty
  | .obj kvs => !kvs.isEmpty

def J.isNull : J → Bool
  | .null => true
  | _ => false

def J.isObj : J → Bool
  | .obj _ => true
  | _ => false

/-- `x or y` in Python: `x` if truthy, else `y`. -/
def jOr (a b : J) : J := if jTruthy a then a else b

/-- `o.get(k)`: `AttributeError` (modelled `none`) unless `o` is a dict;
returns `None` (`J.null`) when the key is absent. -/
def jGet (o : J) (k : String) : Option J :=
  match o with
  | .obj kvs => some ((jFind k kvs).getD .null)
  | _ => none

/-- `o.get(k, d)` with an explicit default. -/
def jGetD (o : J) (k : String) (d : J) : Option J :=
  match o with
  | .obj kvs => some ((jFind k kvs).getD d)
  | _ => none

/-- View a value as a list; iterating anything else raises in the source. -/
def asList : J → Option (List J)
  | .list xs => some xs
  | _ => none

/-- View a value as a dict (used where the source calls `.keys()`). -/
def asObj : J → Option (List (String × J))
  | .obj kvs => some kvs
  | _ => none

/-- Numeric view used by Python `+` / `/` on the values in scope: ints and
bools (Python `bool` is an `int`); anything else raises `TypeError`. -/
def asNum : J → Option Int
  | .int n => some n
  | .bool b => some (if b then 1 else 0)
  | _ => none

/-- Keys of `a` all occur in `b`. -/
def jKeysSub : List (String × J) → List (String × J) → Bool
  | [], _ => true
  | (k, _) :: rest, b => (jFind k b).isSome && jKeysSub rest b

mutual
/-- Python `==` on the values in scope: `None`, bools, ints, strings, lists
pointwise, dicts as finite maps (bool/int compare numerically, as in
Python). -/
def jEq : J → J → Bool
  | .null, .null => true
  | .bool a, .bool b => a == b
  | .bool a, .int n => (if a then (1 : Int) else 0) == n
  | .int n, .bool b => n == (if b then (1 : Int) else 0)
  | .int a, .int b => a == b
  | .str a, .str b => a == b
  | .list a, .list b => jEqL a b
  | .obj a, .obj b => jSub a b && jKeysSub b a
  | _, _ => false

def jEqL : List J → List J → Bool
  | [], [] => true
  | x :: xs, y :: ys => jEq x y && jEqL xs ys
  | _, _ => false

def jSub : List (String × J) → List (String × J) → Bool
  | [], _ => true
  | (k, v) :: rest, b =>
    (match jFind k b with
     | some w => jEq v w
     | none => false) && jSub rest b
end

/-! ### Python `int()` (base 10) on strings -/

def isPyWs (c : Char) : Bool :=
  c = ' ' || c = '\t' || c = '\n' || c = '\r' || c = '\x0b' || c = '\x0c'

def pyStrip (cs : List Char) : List Char :=
  ((cs.dropWhile isPyWs).reverse.dropWhile isPyWs).reverse

/-- After a leading digit: digits, with single underscores allowed only
between digits (Python's numeric-literal rule for `int()`). -/
def tailDigitsOk : List Char → Bool
  | [] => true
  | c :: rest =>
    if c = '_' then
      match rest with
      | [] => false
      | d :: r => d.isDigit && tailDigitsOk r
    else c.isDigit && tailDigitsOk rest

def digitsOk : List Char → Bool
  | [] => false
  | c :: rest => c.isDigit && tailDigitsOk rest

def digitsVal (cs : List Char) : Nat :=
  (cs.filter (fun c => c ≠ '_')).foldl (fun a c => a * 10 + (c.toNat - 48)) 0

def parseDigits (cs : List Char) : Option Nat :=
  if digitsOk cs then some (digitsVal cs) else none

/-- `int(s)`: strip whitespace, optional sign, base-10 digits; `none` is
`ValueError`.  (ASCII digits/whitespace; the data in scope is ASCII.) -/
def pyIntL (cs : List Char) : Option Int :=
  match pyStrip cs with
  | [] => none
  | c :: rest =>
    if c = '+' then (parseDigits rest).map Int.ofNat
    else if c = '-' then (parseDigits rest).map (fun n => -(n : Int))
    else (parseDigits (c :: rest)).map Int.ofNat

def pyInt (s : String) : Option Int := pyIntL s.data

/-- Python `str.split(".")`. -/
def splitDot : List Char → List (List Char)
  | [] => [[]]
  | c :: rest =>
    if c = '.' then [] :: splitDot rest
    else
      match splitDot rest with
      | [] => [[c]]
      | h :: t => (c :: h) :: t

/-- `split_over_ball` (src/cricsheet_scraper.py:43-50): the whole body is in
a `try`, so an unpacking error (`split` yielding ≠ 2 parts) or an `int()`
failure yields `(None, None)`. -/
def split_over_ball (s : String) : Option Int × Option Int :=
  let attempt : Option (Int × Int) :=
    if s.data.contains '.' then
      match splitDot s.data with
      | [o, b] => do
        let ov ← pyIntL o
        let bl ← pyIntL b
        pure (ov, bl)
      | _ => none
    else do
      let n ← pyIntL s.data
      pure (n, 0)
  match attempt with
  | some (ov, bl) => (some ov, some bl)
  | none => (none, none)

/-! ### `normalize_date` (src/cricsheet_scraper.py:52-63) -/

def isLeap (y : Nat) : Bool := (y % 4 = 0 && y % 100 ≠ 0) || y % 400 = 0

def daysInMonth (y m : Nat) : Nat :=
  if m = 2 then (if isLeap y then 29 else 28)
  else if m = 4 || m = 6 || m = 9 || m = 11 then 30
  else 31

def dVal (c : Char) : Nat := c.toNat - 48

/-- Modelled library behaviour: `datetime.fromisoformat` restricted to the
date component `YYYY-MM-DD` (field ranges validated, `MINYEAR = 1`).
`datetime.fromisoformat` also accepts a time suffix after the 10-character
date; for the composition `dt.date().isoformat()` used by the source this
cannot change the result, because on any string accepted with a suffix the
rendered date equals the string's first 10 characters, which is exactly what
the `except` fallback `date_obj[:10]` returns, so the strict-date model
yields the same `normalize_date` function. -/
def pyFromIsoDate (s : String) : Option (Nat × Nat × Nat) :=
  match s.data with
  | [y1, y2, y3, y4, h1, m1, m2, h2, d1, d2] =>
    if y1.isDigit && y2.isDigit && y3.isDigit && y4.isDigit && h1 == '-'
        && m1.isDigit && m2.isDigit && h2 == '-' && d1.isDigit && d2.isDigit then
      let y := ((dVal y1 * 10 + dVal y2) * 10 + dVal y3) * 10 + dVal y4
      let m := dVal m1 * 10 + dVal m2
      let d := dVal d1 * 10 + dVal d2
      if 1 ≤ y && 1 ≤ m && m ≤ 12 && 1 ≤ d && d ≤ daysInMonth y m then
        some (y, m, d)
      else none
    else none
  | _ => none

def digitChar : Nat → Char
  | 0 => '0' | 1 => '1' | 2 => '2' | 3 => '3' | 4 => '4'
  | 5 => '5' | 6 => '6' | 7 => '7' | 8 => '8' | 9 => '9'
  | _ => '*'

def pad2 (n : Nat) : List Char := [digitChar (n / 10 % 10), digitChar (n % 10)]

def pad4 (n : Nat) : List Char :=
  [digitChar (n / 1000 % 10), digitChar (n / 100 % 10), digitChar (n / 10 % 10),
    digitChar (n % 10)]

/-- `date(y, m, d).isoformat()` for years up to 9999. -/
def isoRender (y m d : Nat) : String :=
  ⟨pad4 y ++ '-' :: (pad2 m ++ '-' :: pad2 d)⟩

/-- The string / fall-through part of `normalize_date` after the list
extraction: `isinstance(str)` check, `try fromisoformat` with the
`[:10]`-prefix fallback, final `return None`. -/
def normStr : J → J
  | .str s =>
    match pyFromIsoDate s with
    | some (y, m, d) => .str (isoRender y m d)
    | none => .str (s.take 10)
  | _ => .null

def normalize_date : J → J
  | .null => .null
  | .list [] => .null
  | .list (x :: _) => normStr x
  | x => normStr x

/-! ### Inning normalization (src/cricsheet_scraper.py:182-219)

A normalized delivery tuple is `(over, ball, event)`.  In the source the
first two components are Python ints or `None` under Dialect A and an
arbitrary JSON value (resp. an int from `enumerate`) under Dialect B, so
both are carried as `J`, with `J.null` for `None`. -/

structure NormInning where
  inning_number : Nat
  team : J
  deliveries : List (J × J × J)

def optIntJ : Option Int → J
  | some n => .int n
  | none => .null

/-- The per-entry loop of `parse_v1_innings` over a `deliveries` list:
non-dict or empty entries are skipped, otherwise the single ball-label key
is split. -/
def v1Deliveries : List J → List (J × J × J)
  | [] => []
  | entry :: rest =>
    match entry with
    | .obj ((ball_key, ev) :: _) =>
      let (o, b) := split_over_ball ball_key
      (optIntJ o, optIntJ b, ev) :: v1Deliveries rest
    | _ => v1Deliveries rest

/-- `parse_v1_innings` from position `idx` (the source enumerates from 1).
A non-dict or empty inning entry is skipped (`continue`), but still consumes
its position in the enumeration.  `inn[name]` with `name` the first key is
the first binding's value. -/
def parseV1From (idx : Nat) : List J → Option (List NormInning)
  | [] => some []
  | inn :: rest =>
    match inn with
    | .obj ((_, data) :: _) => do
      let team ← jGet data "team"
      let delivs ← asList (← jGetD data "deliveries" (.list []))
      let rest2 ← parseV1From (idx + 1) rest
      pure ({ inning_number := idx, team := team,
              deliveries := v1Deliveries delivs } :: rest2)
    | _ => parseV1From (idx + 1) rest

/-- `enumerate(xs, start=i)`. -/
def enumFrom (i : Int) : List J → List (Int × J)
  | [] => []
  | x :: xs => (i, x) :: enumFrom (i + 1) xs

/-- The per-over loop of `parse_v2_innings`: each over block must be a dict
(`.get` raises otherwise); its deliveries get ball numbers 1, 2, … . -/
def v2Deliveries : List J → Option (List (J × J × J))
  | [] => some []
  | blk :: rest => do
    let over_num ← jGet blk "over"
    let devs ← asList (← jGetD blk "deliveries" (.list []))
    let rest2 ← v2Deliveries rest
    pure (((enumFrom 1 devs).map (fun p => (over_num, J.int p.1, p.2))) ++ rest2)

/-- `parse_v2_innings` from position `idx`: no malformed-entry skipping —
`inn.get("team")` raises on a non-dict entry, and an empty dict yields an
inning with `team = None` and no deliveries. -/
def parseV2From (idx : Nat) : List J → Option (List NormInning)
  | [] => some []
  | inn :: rest => do
    let team ← jGet inn "team"
    let overBlks ← asList (← jGetD inn "overs" (.list []))
    let ds ← v2Deliveries overBlks
    let rest2 ← parseV2From (idx + 1) rest
    pure ({ inning_number := idx, team := team, deliveries := ds } :: rest2)

/-- The Dialect B test on the first entry: a mapping with both a `team` and
an `overs` key. -/
def isDialectB : J → Bool
  | .obj kvs => (jFind "team" kvs).isSome && (jFind "overs" kvs).isSome
  | _ => false

/-- `detect_and_parse_innings` (src/cricsheet_scraper.py:213-219).  The
argument is whatever `j.get("innings", [])` returned: a falsy value short
circuits to `[]`; indexing a truthy string yields a character, never a dict,
so every entry is skipped by `parse_v1_innings`; indexing any other truthy
non-list raises. -/
def detect_and_parse_innings (innings : J) : Option (List NormInning) :=
  if !jTruthy innings then some []
  else
    match innings with
    | .list [] => some []
    | .list (first :: rest) =>
      if isDialectB first then parseV2From 1 (first :: rest)
      else parseV1From 1 (first :: rest)
    | .str _ => some []
    | _ => none

/-! ### The Event Reducer (src/cricsheet_scraper.py:254-318) -/

structure DeliveryRow where
  match_id : J
  inning_number : Nat
  overs : J
  ball : J
  batting_team : J
  bowling_team : J
  batter : J
  bowler : J
  non_striker : J
  runs_batter : J
  runs_extras : J
  runs_total : J
  extras_type : J
  wicket_kind : J
  player_out : J

structure InningsRow where
  match_id : J
  inning_number : Nat
  batting_team : J
  bowling_team : J
  runs : Int
  wickets : Nat
  overs : Option ℚ

/-- The per-event fields the loop body extracts from `ev`
(src/cricsheet_scraper.py:267-304).  `rtotN` is the numeric value
`total_runs += rtot` adds and `wicket_flag` the wicket-count contribution;
all-or-nothing failure makes the evaluation order of the fallible steps
irrelevant to the `Option` result. -/
structure EventFields where
  rb : J
  rext : J
  rtot : J
  rtotN : Int
  batter : J
  bowler : J
  non_striker : J
  extras_type : J
  wicket_kind : J
  player_out : J
  wicket_flag : Nat

/-- `extras_type = next(iter(extras_obj.keys()), None) if extras_obj else
None` (src/cricsheet_scraper.py:273): `.keys()` raises on a truthy
non-dict. -/
def extrasTypeOf (extras_obj : J) : Option J :=
  if jTruthy extras_obj then do
    let kvs ← asObj extras_obj
    pure (match kvs with
          | [] => J.null
          | (k, _) :: _ => J.str k)
  else pure J.null

/-- The wicket block (src/cricsheet_scraper.py:276-283): flag, kind and
dismissed player, taking only the first entry of a non-empty list. -/
def wicketResOf (wickets : J) : Option (Nat × J × J) :=
  match wickets with
  | .list (wk :: _) => do
    let kind ← jGet wk "kind"
    let pout ← jGet wk "player_out"
    pure (1, kind, pout)
  | _ => pure ((0 : Nat), J.null, J.null)

def processEvent (ev : J) : Option EventFields := do
  let runs := jOr (← jGet ev "runs") (.obj [])
  let rb ← jGetD runs "batter" (.int 0)
  let rext ← jGetD runs "extras" (.int 0)
  let rbN ← asNum rb
  let rextN ← asNum rext
  let rtot ← jGetD runs "total" (.int (rbN + rextN))
  let extras_type ← extrasTypeOf (jOr (← jGet ev "extras") (.obj []))
  let wres ← wicketResOf (jOr (← jGet ev "wickets") (← jGet ev "wicket"))
  let batter ← jGet ev "batter"
  let bowler ← jGet ev "bowler"
  let non_striker ← jGet ev "non_striker"
  let rtotN ← asNum rtot
  pure { rb := rb, rext := rext, rtot := rtot, rtotN := rtotN,
         batter := batter, bowler := bowler, non_striker := non_striker,
         extras_type := extras_type, wicket_kind := wres.2.1,
         player_out := wres.2.2, wicket_flag := wres.1 }

/-- The delivery loop (src/cricsheet_scraper.py:263-304) as explicit state
passing: running totals, carry-forward `last_over` / `last_ball`, and the
delivery rows in encounter order. -/
def reduceDeliveries (mid : J) (iNo : Nat) (bat bowl : J) :
    List (J × J × J) → Int → Nat → J → J →
    Option (List DeliveryRow × Int × Nat × J × J)
  | [], runs, wkts, lo, lb => some ([], runs, wkts, lo, lb)
  | (o, b, ev) :: rest, runs, wkts, lo, lb => do
    let lo2 := if o.isNull then lo else o
    let lb2 := if b.isNull then lb else b
    let f ← processEvent ev
    let row : DeliveryRow :=
      { match_id := mid, inning_number := iNo, overs := o, ball := b,
        batting_team := bat, bowling_team := bowl, batter := f.batter,
        bowler := f.bowler, non_striker := f.non_striker,
        runs_batter := f.rb, runs_extras := f.rext, runs_total := f.rtot,
        extras_type := f.extras_type, wicket_kind := f.wicket_kind,
        player_out := f.player_out }
    let (rows, runs2, wkts2, lo3, lb3) ←
      reduceDeliveries mid iNo bat bowl rest (runs + f.rtotN)
        (wkts + f.wicket_flag) lo2 lb2
    pure (row :: rows, runs2, wkts2, lo3, lb3)

/-- `overs_float = None; if last_over is not None and last_ball is not None:
overs_float = (last_over or 0) + (last_ball or 0) / 6.0`
(src/cricsheet_scraper.py:306-308); the arithmetic raises on non-numeric
values. -/
def oversOf (lo lb : J) : Option (Option ℚ) :=
  if !lo.isNull && !lb.isNull then do
    let a ← asNum (if jTruthy lo then lo else .int 0)
    let b ← asNum (if jTruthy lb then lb else .int 0)
    pure (some ((a : ℚ) + (b : ℚ) / 6))
  else
    pure none

/-- One iteration of the `for inn in norm_innings` loop: the rows for one
normalized inning. -/
def reduceInning (mid : J) (bat bowl : J) (inn : NormInning) :
    Option (List DeliveryRow × InningsRow) := do
  let (rows, runs, wkts, lo, lb) ←
    reduceDeliveries mid inn.inning_number bat bowl inn.deliveries 0 0
      (.int 0) (.int 0)
  let overs ← oversOf lo lb
  pure (rows, { match_id := mid, inning_number := inn.inning_number,
                batting_team := bat, bowling_team := bowl, runs := runs,
                wickets := wkts, overs := overs })

/-- The innings loop: bowling-team inference
`team2 if batting_team == team1 else team1` (src/cricsheet_scraper.py:256)
and accumulation of the two row lists. -/
def reduceAll (mid t1 t2 : J) : List NormInning →
    Option (List InningsRow × List DeliveryRow)
  | [] => some ([], [])
  | inn :: rest => do
    let bat := inn.team
    let bowl := if jEq bat t1 then t2 else t1
    let (rows, irow) ← reduceInning mid bat bowl inn
    let (irs, drs) ← reduceAll mid t1 t2 rest
    pure (irow :: irs, rows ++ drs)

/-! ### Match-level field extraction (src/cricsheet_scraper.py:221-252) -/

/-- `os.path.basename` (POSIX): the part after the last `/`. -/
def basenameChars (cs : List Char) : List Char :=
  (cs.reverse.takeWhile (fun c => c ≠ '/')).reverse

/-- `os.path.splitext(…)[0]`: strip the suffix from the last dot, unless all
characters before that dot are themselves dots. -/
def stemChars (cs : List Char) : List Char :=
  let rev := cs.reverse
  let post := rev.takeWhile (fun c => c ≠ '.')
  if post.length = rev.length then cs
  else
    let pre := rev.drop (post.length + 1)
    if pre.all (fun c => c = '.') then cs else pre.reverse

def pathStem (p : String) : String := ⟨stemChars (basenameChars p.data)⟩

structure MatchRow where
  match_id : J
  match_type : J
  match_date : J
  venue : J
  city : J
  country : J
  team1 : J
  team2 : J
  toss_winner : J
  toss_decision : J
  winner : J
  result : J
  margin : J

/-- `team1, team2 = (teams + [None, None])[:2]` (src/cricsheet_scraper.py:230). -/
def firstTwo : List J → J × J
  | [] => (.null, .null)
  | [a] => (a, .null)
  | a :: b :: _ => (a, b)

/-- The match-row block of `parse_match_json`
(src/cricsheet_scraper.py:225-246), split out: all the `info`-derived fields.
All fallible steps fail together (the whole match raises), so grouping them
does not change the `Option` result. -/
def extractMatchRow (info : J) (match_path : String) : Option MatchRow := do
  let match_type ← jGet info "match_type"
  let match_id := jOr (← jGet info "match_id") (.str (pathStem match_path))
  let teams ← asList (← jGetD info "teams" (.list []))
  let tp := firstTwo teams
  let dates ← jGet info "dates"
  let toss := jOr (← jGetD info "toss" (.obj [])) (.obj [])
  let toss_winner ← jGet toss "winner"
  let toss_decision ← jGet toss "decision"
  let outcome := jOr (← jGetD info "outcome" (.obj [])) (.obj [])
  let winner ← jGet outcome "winner"
  let result ← jGet outcome "result"
  let country := jOr (← jGet info "country") .null
  let venue ← jGet info "venue"
  let city ← jGet info "city"
  pure { match_id := match_id, match_type := match_type,
         match_date := normalize_date dates, venue := venue, city := city,
         country := country, team1 := tp.1, team2 := tp.2,
         toss_winner := toss_winner, toss_decision := toss_decision,
         winner := winner, result := result, margin := .null }

/-- `parse_match_json` (src/cricsheet_scraper.py:224-320).  `match_id`,
`team1` and `team2` flow into the innings loop exactly as stored in the
match row. -/
def parse_match_json (j : J) (match_path : String) :
    Option (MatchRow × List InningsRow × List DeliveryRow) := do
  let info ← jGetD j "info" (.obj [])
  let match_row ← extractMatchRow info match_path
  let innings_src ← jGetD j "innings" (.list [])
  let norm ← detect_and_parse_innings innings_src
  let (irows, drows) ← reduceAll match_row.match_id match_row.team1 match_row.team2 norm
  pure (match_row, irows, drows)

/-! ### Specification-side definitions (from the spec's words, for
comparison with the source embeddings) and helper predicates -/

/-- Written from the spec of the ball-label splitter: the pair of the
integer values of the two halves when the string contains a `.` and both
halves parse as integers; `(n, 0)` when there is no `.` and the whole
string parses as `n`; `(null, null)` on any parse failure. -/
def splitBallLabelSpec (s : String) : Option Int × Option Int :=
  if s.data.contains '.' then
    match splitDot s.data with
    | [a, b] =>
      match pyIntL a, pyIntL b with
      | some m, some k => (some m, some k)
      | _, _ => (none, none)
    | _ => (none, none)
  else
    match pyIntL s.data with
    | some n => (some n, some 0)
    | none => (none, none)

/-- "contains a `k` key", written independently of `jFind`. -/
def hasKeyAny (kvs : List (String × J)) (k : String) : Bool :=
  kvs.any (fun kv => kv.1 == k)

/-- The spec's detector rule: "the first inning entry is a mapping that
contains both a `team` key and an `overs` key". -/
def claimDialectB : J → Bool
  | .obj kvs => hasKeyAny kvs "team" && hasKeyAny kvs "overs"
  | _ => false

def isNonemptyList : J → Bool
  | .list (_ :: _) => true
  | _ => false

/-- The carry-forward of the last non-null value, used by the spec to
describe `last_over` / `last_ball`. -/
def lastNN (init : J) (xs : List J) : J :=
  xs.foldl (fun acc x => if x.isNull then acc else x) init

/-- `x or 0`. -/
def orZero (x : J) : J := if jTruthy x then x else .int 0

/-! ### Canonical encodings of one logical match in the two dialects
(for the dialect-independence claim).  A logical match is a list of
innings; an inning is a team value together with a list of over blocks
`(over number, events)`. -/

def enumNatFrom (i : Nat) : List J → List (Nat × J)
  | [] => []
  | x :: xs => (i, x) :: enumNatFrom (i + 1) xs

def natReprChars (n : Nat) : List Char :=
  if n = 0 then ['0'] else ((Nat.digits 10 n).map digitChar).reverse

/-- The Dialect A ball label `"<over>.<ball>"`. -/
def mkLabel (o i : Nat) : String := ⟨natReprChars o ++ '.' :: natReprChars i⟩

/-- Dialect A encoding of one inning: a single-key wrapper around an object
with `team` and a flat `deliveries` list of single-key ball-label entries,
balls numbered 1, 2, … within each over. -/
def encInnA (inn : J × List (Nat × List J)) : J :=
  .obj [("inning", .obj
    [("team", inn.1),
     ("deliveries", .list (inn.2.flatMap (fun ob =>
       (enumNatFrom 1 ob.2).map (fun p => J.obj [(mkLabel ob.1 p.1, p.2)]))))])]

/-- Dialect B encoding of one inning: `team` plus explicit over blocks. -/
def encInnB (inn : J × List (Nat × List J)) : J :=
  .obj [("team", inn.1),
        ("overs", .list (inn.2.map (fun ob =>
          J.obj [("over", .int (Int.ofNat ob.1)),
                 ("deliveries", .list ob.2)])))]

def encodeA (L : List (J × List (Nat × List J))) : List J := L.map encInnA

def encodeB (L : List (J × List (Nat × List J))) : List J := L.map encInnB

def mkRecord (info : J) (innings : List J) : J :=
  .obj [("info", info), ("innings", .list innings)]

/-- The dialect-independent normal form both encodings should reach. -/
def normDelivsOf (overs : List (Nat × List J)) : List (J × J × J) :=
  overs.flatMap (fun ob =>
    (enumNatFrom 1 ob.2).map (fun p =>
      (J.int (Int.ofNat ob.1), J.int (Int.ofNat p.1), p.2)))

def normFrom (idx : Nat) : List (J × List (Nat × List J)) → List NormInning
  | [] => []
  | inn :: rest =>
    { inning_number := idx, team := inn.1, deliveries := normDelivsOf inn.2 }
      :: normFrom (idx + 1) rest

/-- What the dialect-independence property compares: per-inning
`(inning number, cumulative runs, cumulative wickets)` and the inning
numbers of the delivery rows (which determine the per-inning delivery
counts). -/
def summaryFn (out : MatchRow × List InningsRow × List DeliveryRow) :
    List (Nat × Int × Nat) × List Nat :=
  (out.2.1.map (fun r => (r.inning_number, r.runs, r.wickets)),
   out.2.2.map (fun d => d.inning_number))

/-! ### Concrete inputs used by counterexamples, examples and witnesses -/

/-- An event whose `wickets` field is a truthy non-list while `wicket` is a
non-empty list: the source's `or`-chain keeps the non-list and records no
wicket. -/
def c4ev : J :=
  .obj [("wickets", .str "c"),
        ("wicket", .list [.obj [("kind", .str "bowled"),
                                ("player_out", .str "X")]])]

/-- A Dialect B record whose second inning entry is an empty mapping. -/
def c6rec : J :=
  mkRecord (.obj [("match_id", .str "m")])
    [.obj [("team", .str "A"), ("overs", .list [])], .obj []]

/-- A record with teams `A`/`B` and one inning batting `C` (matching
neither). -/
def c8rec : J :=
  mkRecord (.obj [("teams", .list [.str "A", .str "B"])])
    [.obj [("team", .str "C"), ("overs", .list [])]]

def c8m : MatchRow :=
  { match_id := .str "m", match_type := .null, match_date := .null,
    venue := .null, city := .null, country := .null,
    team1 := .str "A", team2 := .str "B", toss_winner := .null,
    toss_decision := .null, winner := .null, result := .null,
    margin := .null }

def c8irow : InningsRow :=
  { match_id := .str "m", inning_number := 1, batting_team := .str "C",
    bowling_team := .str "A", runs := 0, wickets := 0,
    overs := some (0 + 0 / 6) }

/-- A batter-runs-only event. -/
def mkBatEv (r : Int) : J := .obj [("runs", .obj [("batter", .int r)])]

/-- The spec's worked inning: batter runs 0, 4, 1, 6, 0, 2, no extras. -/
def inn13 : NormInning :=
  { inning_number := 1, team := .str "T",
    deliveries := (enumNatFrom 1 [mkBatEv 0, mkBatEv 4, mkBatEv 1,
        mkBatEv 6, mkBatEv 0, mkBatEv 2]).map
      (fun p => (J.int 0, J.int p.1, p.2)) }

/-- The empty inning used to witness the reducer lemmas. -/
def innEmpty : NormInning :=
  { inning_number := 1, team := .str "A", deliveries := [] }

def irowEmpty : InningsRow :=
  { match_id := .str "m", inning_number := 1, batting_team := .str "A",
    bowling_team := .str "B", runs := 0, wickets := 0,
    overs := some (0 + 0 / 6) }

/-- The all-defaults event fields produced for an event `{}`. -/
def evFieldsEmpty : EventFields :=
  { rb := .int 0, rext := .int 0, rtot := .int 0, rtotN := 0,
    batter := .null, bowler := .null, non_striker := .null,
    extras_type := .null, wicket_kind := .null, player_out := .null,
    wicket_flag := 0 }

/-- A minimal one-inning Dialect B record (empty info object). -/
def c10rec : J :=
  mkRecord (.obj []) [.obj [("team", .str "A"), ("overs", .list [])]]

def c10m : MatchRow :=
  { match_id := .str "m", match_type := .null, match_date := .null,
    venue := .null, city := .null, country := .null,
    team1 := .null, team2 := .null, toss_winner := .null,
    toss_decision := .null, winner := .null, result := .null,
    margin := .null }

def c10irow : InningsRow :=
  { match_id := .str "m", inning_number := 1, batting_team := .str "A",
    bowling_team := .null, runs := 0, wickets := 0,
    overs := some (0 + 0 / 6) }

/-! ## Theorems -/

lemma hasKeyAny_eq (k : String) (kvs : List (String × J)) :
    hasKeyAny kvs k = (jFind k kvs).isSome := by
  induction kvs with
  | nil => rfl
  | cons kv rest ih =>
    obtain ⟨k0, v⟩ := kv
    by_cases h : k0 = k
    · simp [hasKeyAny, jFind, h]
    · have hb : (k0 == k) = false := by simp [h]
      simp [hasKeyAny, jFind, h, hb] at ih ⊢
      exact ih

lemma claimDialectB_eq (f : J) : claimDialectB f = isDialectB f := by
  cases f <;> simp [claimDialectB, isDialectB, hasKeyAny_eq]

/-- C3: for every input string the ball-label splitter behaves as specified:
integer halves around a single `.`, `(n, 0)` with no `.`, `(null, null)` on
any parse failure; in particular `"0.1" ↦ (0, 1)`, `"5" ↦ (5, 0)` and
`"x.y" ↦ (null, null)`. -/
theorem claim_C3_split_ball_label :
    (∀ s : String, split_over_ball s = splitBallLabelSpec s) ∧
    split_over_ball "0.1" = (some 0, some 1) ∧
    split_over_ball "5" = (some 5, some 0) ∧
    split_over_ball "x.y" = (none, none) := by
  refine ⟨fun s => ?_, rfl, rfl, rfl⟩
  unfold split_over_ball splitBallLabelSpec
  by_cases h : s.data.contains '.'
  · rw [if_pos h, if_pos h]
    rcases splitDot s.data with _ | ⟨a, _ | ⟨b, _ | _⟩⟩
    · rfl
    · rfl
    · cases hpa : pyIntL a <;> cases hpb : pyIntL b <;>
        simp [hpa, hpb, Option.bind]
    · rfl
  · rw [if_neg h, if_neg h]
    cases hp : pyIntL s.data <;> simp [hp, Option.bind]

/-- C7 counterexample: the claim says `"2022/01/03XYZ"` normalizes to
`"2022/01/03X"`, but the 10-character prefix the code takes is
`"2022/01/03"`. -/
theorem claim_C7_counterexample :
    normalize_date (J.str "2022/01/03XYZ") = J.str "2022/01/03" ∧
    "2022/01/03" ≠ "2022/01/03X" := ⟨rfl, by decide⟩

/-- C7 amended: date normalization returns the rendered ISO date when the
string parses, the raw 10-character prefix when parsing fails (so the
non-ISO example yields `"2022/01/03"`, not `"2022/01/03X"`), the first
element's result for a non-empty list, and null for an absent field or an
empty list. -/
theorem claim_C7_amended :
    (∀ s y m d, pyFromIsoDate s = some (y, m, d) →
      normalize_date (.str s) = .str (isoRender y m d)) ∧
    (∀ s, pyFromIsoDate s = none →
      normalize_date (.str s) = .str (s.take 10)) ∧
    normalize_date .null = .null ∧
    normalize_date (.list []) = .null ∧
    (∀ s xs, normalize_date (.list (.str s :: xs)) = normalize_date (.str s)) ∧
    normalize_date (.list [.str "2022-01-03", .str "2022-01-04"])
      = .str "2022-01-03" ∧
    normalize_date (.str "2022/01/03XYZ") = .str "2022/01/03" := by
  refine ⟨fun s y m d h => ?_, fun s h => ?_, rfl, rfl, fun s xs => rfl,
    rfl, rfl⟩
  · simp [normalize_date, normStr, h]
  · simp [normalize_date, normStr, h]

theorem claim_C7_witness :
    normalize_date (J.str "2022-01-03") = J.str (isoRender 2022 1 3) ∧
    normalize_date (J.str "xx") = J.str ("xx".take 10) :=
  ⟨claim_C7_amended.1 "2022-01-03" 2022 1 3 rfl, claim_C7_amended.2.1 "xx" rfl⟩

/-- C9: the record-to-rows transform is a pure function of its two inputs:
two runs on identical inputs produce identical Match, Innings and Delivery
outputs.  (The embedding is total-functional because the source reads no
mutable or ambient state in this code path.) -/
theorem claim_C9_deterministic (j j2 : J) (p p2 : String)
    (hj : j = j2) (hp : p = p2) :
    parse_match_json j p = parse_match_json j2 p2 := by
  rw [hj, hp]

theorem claim_C9_witness :
    parse_match_json J.null "a" = parse_match_json J.null "a" :=
  claim_C9_deterministic J.null J.null "a" "a" rfl rfl

/-- C2: the detector classifies a non-empty inning list as Dialect B
exactly when its first entry is a mapping containing both a `team` and an
`overs` key, routing the whole list through the Dialect B normalizer, and
as Dialect A otherwise; an empty list yields zero normalized innings.  The
dispatch applies one normalizer to the entire list, so the decision is made
once. -/
theorem claim_C2_detector :
    detect_and_parse_innings (J.list []) = some [] ∧
    (∀ f rest, claimDialectB f = true →
      detect_and_parse_innings (J.list (f :: rest)) = parseV2From 1 (f :: rest)) ∧
    (∀ f rest, claimDialectB f = false →
      detect_and_parse_innings (J.list (f :: rest)) = parseV1From 1 (f :: rest)) := by
  refine ⟨rfl, fun f rest h => ?_, fun f rest h => ?_⟩ <;>
    rw [claimDialectB_eq] at h <;>
    simp [detect_and_parse_innings, jTruthy, h]

theorem claim_C2_witness :
    detect_and_parse_innings
        (J.list [J.obj [("team", J.null), ("overs", J.null)]])
      = parseV2From 1 [J.obj [("team", J.null), ("overs", J.null)]] ∧
    detect_and_parse_innings (J.list [J.int 5]) = parseV1From 1 [J.int 5] :=
  ⟨claim_C2_detector.2.1 _ [] rfl, claim_C2_detector.2.2 _ [] rfl⟩

/-- C6 counterexample: a Dialect B record whose second inning entry is an
empty mapping.  The claim says it contributes no Innings row; the code
produces an Innings row for it (two rows, zero deliveries). -/
theorem claim_C6_counterexample :
    (parse_match_json c6rec "x").map
        (fun out => (out.2.1.length, out.2.2.length)) = some (2, 0) := rfl

/-- C6 amended: in Dialect A a non-mapping or empty-mapping inning entry is
skipped silently (zero Delivery rows, no Innings row, later innings still
processed at their positions); in Dialect B there is no such skipping — an
empty-mapping entry yields an Innings row with a null team and no
deliveries, and a non-mapping entry aborts the whole match parse. -/
theorem claim_C6_amended :
    (∀ idx inn rest, inn.isObj = false ∨ inn = J.obj [] →
      parseV1From idx (inn :: rest) = parseV1From (idx + 1) rest) ∧
    (∀ idx rest, parseV2From idx (J.obj [] :: rest) =
      (parseV2From (idx + 1) rest).map
        (fun l => { inning_number := idx, team := J.null,
                    deliveries := [] } :: l)) ∧
    (∀ idx inn rest, inn.isObj = false → parseV2From idx (inn :: rest) = none) := by
  refine ⟨fun idx inn rest h => ?_, fun idx rest => ?_, fun idx inn rest h => ?_⟩
  · rcases h with h | h
    · cases inn <;> first | rfl | simp [J.isObj] at h
    · subst h; rfl
  · cases hr : parseV2From (idx + 1) rest <;>
      simp [parseV2From, jGet, jGetD, jFind, asList, v2Deliveries, hr]
  · cases inn <;> first | rfl | simp [J.isObj] at h

theorem claim_C6_witness :
    parseV1From 1 [J.int 3] = some [] ∧ parseV2From 1 [J.int 3] = none :=
  ⟨(claim_C6_amended.1 1 (J.int 3) [] (Or.inl rfl)).trans rfl,
   claim_C6_amended.2.2 1 (J.int 3) [] rfl⟩


lemma reduceInning_teams (mid bat bowl : J) (inn : NormInning)
    (out : List DeliveryRow × InningsRow)
    (h : reduceInning mid bat bowl inn = some out) :
    out.2.batting_team = bat ∧ out.2.bowling_team = bowl := by
  simp only [reduceInning, Option.bind_eq_bind, Option.bind_eq_some,
    Option.pure_def, Option.some.injEq] at h
  obtain ⟨five, hfive, h⟩ := h
  obtain ⟨rows, runs, wkts, lo, lb⟩ := five
  dsimp only at h
  obtain ⟨ov, hov, h⟩ := h
  subst h
  exact ⟨rfl, rfl⟩

lemma reduceAll_bowling (mid t1 t2 : J) :
    ∀ (norm : List NormInning) irs drs,
      reduceAll mid t1 t2 norm = some (irs, drs) →
      ∀ r ∈ irs, r.bowling_team = if jEq r.batting_team t1 then t2 else t1 := by
  intro norm
  induction norm with
  | nil =>
    intro irs drs h r hr
    simp only [reduceAll, Option.some.injEq, Prod.mk.injEq] at h
    rw [← h.1] at hr
    simp at hr
  | cons inn rest ih =>
    intro irs drs h r hr
    simp only [reduceAll, Option.bind_eq_bind, Option.bind_eq_some,
      Option.pure_def, Option.some.injEq] at h
    obtain ⟨out, hout, h⟩ := h
    obtain ⟨rows, irow⟩ := out
    dsimp only at h
    obtain ⟨prest, hprest, h⟩ := h
    obtain ⟨irs2, drs2⟩ := prest
    dsimp only at h
    simp only [Prod.mk.injEq] at h
    obtain ⟨hirs, _⟩ := h
    obtain ⟨hbat, hbowl⟩ := reduceInning_teams _ _ _ _ _ hout
    rw [← hirs] at hr
    rcases List.mem_cons.mp hr with h1 | h1
    · subst h1
      rw [hbat, hbowl]
    · exact ih irs2 drs2 hprest r h1

lemma extractMatchRow_teams (info : J) (p : String) (m : MatchRow)
    (h : extractMatchRow info p = some m) :
    ∃ tj ts, jGetD info "teams" (.list []) = some tj ∧ asList tj = some ts ∧
      m.team1 = (firstTwo ts).1 ∧ m.team2 = (firstTwo ts).2 := by
  unfold extractMatchRow at h
  obtain ⟨mt, hmt, h⟩ := Option.bind_eq_some.mp h
  obtain ⟨mi, hmi, h⟩ := Option.bind_eq_some.mp h
  obtain ⟨tj, htj, h⟩ := Option.bind_eq_some.mp h
  obtain ⟨ts, hts, h⟩ := Option.bind_eq_some.mp h
  obtain ⟨da, hda, h⟩ := Option.bind_eq_some.mp h
  obtain ⟨to1, hto1, h⟩ := Option.bind_eq_some.mp h
  obtain ⟨tw, htw, h⟩ := Option.bind_eq_some.mp h
  obtain ⟨td, htd, h⟩ := Option.bind_eq_some.mp h
  obtain ⟨oc, hoc, h⟩ := Option.bind_eq_some.mp h
  obtain ⟨wi, hwi, h⟩ := Option.bind_eq_some.mp h
  obtain ⟨re, hre, h⟩ := Option.bind_eq_some.mp h
  obtain ⟨co, hco, h⟩ := Option.bind_eq_some.mp h
  obtain ⟨ve, hve, h⟩ := Option.bind_eq_some.mp h
  obtain ⟨ci, hci, h⟩ := Option.bind_eq_some.mp h
  simp only [Option.pure_def, Option.some.injEq] at h
  exact ⟨tj, ts, htj, hts, by rw [← h], by rw [← h]⟩

lemma parse_match_json_parts (j : J) (p : String) (m : MatchRow)
    (irs : List InningsRow) (drs : List DeliveryRow)
    (h : parse_match_json j p = some (m, irs, drs)) :
    ∃ info norm, jGetD j "info" (.obj []) = some info ∧
      extractMatchRow info p = some m ∧
      reduceAll m.match_id m.team1 m.team2 norm = some (irs, drs) := by
  simp only [parse_match_json, Option.bind_eq_bind, Option.bind_eq_some,
    Option.pure_def, Option.some.injEq] at h
  obtain ⟨info, hinfo, mr, hmr, src, hsrc, norm, hnorm, x, hx, hm⟩ := h
  obtain ⟨irs2, drs2⟩ := x
  dsimp only at hm
  simp only [Prod.mk.injEq] at hm
  obtain ⟨h1, h2, h3⟩ := hm
  subst h1; subst h2; subst h3
  exact ⟨info, norm, hinfo, hmr, hx⟩

/-- C8 counterexample: with teams `A`/`B` and an inning batting `C`
(matching neither), the inferred bowling team is `A` (= team1), not null as
the claim states. -/
theorem claim_C8_counterexample :
    (parse_match_json c8rec "m").map
        (fun out => out.2.1.map (fun r => r.bowling_team)) = some [J.str "A"] ∧
    (parse_match_json c8rec "m").map
        (fun out => out.2.1.map (fun r => r.bowling_team.isNull))
      = some [false] :=
  ⟨rfl, rfl⟩

/-- C8 amended: team1/team2 are the first two entries of the record's team
list, padded with null (a single-entry list yields `team2 = null`); each
inning's bowling team is `team2` when the batting team equals `team1` and
`team1` otherwise — so a batting team matching neither recorded team is
assigned `team1` rather than null, and no error is raised. -/
theorem claim_C8_amended :
    (firstTwo [] = (J.null, J.null) ∧ (∀ a, firstTwo [a] = (a, J.null)) ∧
      ∀ a b r, firstTwo (a :: b :: r) = (a, b)) ∧
    (∀ info p m, extractMatchRow info p = some m →
      ∃ tj ts, jGetD info "teams" (.list []) = some tj ∧
        asList tj = some ts ∧
        m.team1 = (firstTwo ts).1 ∧ m.team2 = (firstTwo ts).2) ∧
    (∀ j p m irs drs, parse_match_json j p = some (m, irs, drs) →
      ∀ r ∈ irs, r.bowling_team
        = if jEq r.batting_team m.team1 then m.team2 else m.team1) := by
  refine ⟨⟨rfl, fun a => rfl, fun a b r => rfl⟩,
    fun info p m h => extractMatchRow_teams info p m h,
    fun j p m irs drs h r hr => ?_⟩
  obtain ⟨info, norm, _, _, hra⟩ := parse_match_json_parts j p m irs drs h
  exact reduceAll_bowling m.match_id m.team1 m.team2 norm irs drs hra r hr

theorem claim_C8_witness :
    c8irow.bowling_team
      = if jEq c8irow.batting_team c8m.team1 then c8m.team2 else c8m.team1 :=
  claim_C8_amended.2.2 c8rec "m" c8m [c8irow] [] rfl c8irow (by simp)

lemma lastNN_not_null (xs : List J) :
    ∀ init : J, init.isNull = false → (lastNN init xs).isNull = false := by
  induction xs with
  | nil => intro init h; exact h
  | cons x rest ih =>
    intro init h
    show (lastNN (if x.isNull then init else x) rest).isNull = false
    apply ih
    by_cases hx : x.isNull = true
    · simp [hx, h]
    · simp only [Bool.not_eq_true] at hx
      simp [hx]

lemma reduceDeliveries_spec (mid : J) (iNo : Nat) (bat bowl : J) :
    ∀ (ds : List (J × J × J)) (runs : Int) (wkts : Nat) (lo lb : J)
      (rows : List DeliveryRow) (R : Int) (W : Nat) (LO LB : J),
      reduceDeliveries mid iNo bat bowl ds runs wkts lo lb
        = some (rows, R, W, LO, LB) →
      ∃ fs : List EventFields,
        ds.mapM (fun t => processEvent t.2.2) = some fs ∧
        R = runs + (fs.map (fun f => f.rtotN)).sum ∧
        W = wkts + (fs.map (fun f => f.wicket_flag)).sum ∧
        LO = lastNN lo (ds.map (fun t => t.1)) ∧
        LB = lastNN lb (ds.map (fun t => t.2.1)) ∧
        rows.length = ds.length := by
  intro ds
  induction ds with
  | nil =>
    intro runs wkts lo lb rows R W LO LB h
    simp only [reduceDeliveries, Option.some.injEq, Prod.mk.injEq] at h
    obtain ⟨h1, h2, h3, h4, h5⟩ := h
    exact ⟨[], rfl, by simp [h2], by simp [h3], by simp [lastNN, h4],
      by simp [lastNN, h5], by simp [← h1]⟩
  | cons t rest ih =>
    intro runs wkts lo lb rows R W LO LB h
    obtain ⟨o, b, ev⟩ := t
    unfold reduceDeliveries at h
    obtain ⟨f, hf, h⟩ := Option.bind_eq_some.mp h
    obtain ⟨st, hst, h⟩ := Option.bind_eq_some.mp h
    obtain ⟨rows1, R1, W1, LO1, LB1⟩ := st
    dsimp only at h hst
    simp only [Option.pure_def, Option.some.injEq, Prod.mk.injEq] at h
    obtain ⟨h1, h2, h3, h4, h5⟩ := h
    obtain ⟨fs1, hm, hR, hW, hLO, hLB, hlen⟩ :=
      ih (runs + f.rtotN) (wkts + f.wicket_flag)
        (if o.isNull then lo else o) (if b.isNull then lb else b)
        rows1 R1 W1 LO1 LB1 hst
    refine ⟨f :: fs1, ?_, ?_, ?_, ?_, ?_, ?_⟩
    · simp only [List.mapM_cons, hf, hm]; rfl
    · subst h2; rw [hR]; simp only [List.map_cons, List.sum_cons]; omega
    · subst h3; rw [hW]; simp only [List.map_cons, List.sum_cons]; omega
    · subst h4; simpa [lastNN] using hLO
    · subst h5; simpa [lastNN] using hLB
    · rw [← h1]; simp [hlen]

lemma oversOf_some (lo lb : J) (hlo : lo.isNull = false) (hlb : lb.isNull = false) :
    ∀ ov, oversOf lo lb = some ov → ov.isSome = true := by
  intro ov h
  unfold oversOf at h
  split at h
  · obtain ⟨a, ha, h⟩ := Option.bind_eq_some.mp h
    obtain ⟨b, hb, h⟩ := Option.bind_eq_some.mp h
    simp only [Option.pure_def, Option.some.injEq] at h
    rw [← h]
    rfl
  · next hc => rw [hlo, hlb] at hc; simp at hc

/-- C5: the Innings aggregate is the left fold of the inning's delivery
sequence in encounter order — runs is the sum of the per-delivery totals,
wickets the sum of the per-delivery wicket flags, there is one Delivery row
per tuple, and overs is `final_over + final_ball / 6` on the carry-forward
last non-null over/ball values; the worked inning with batter runs
0, 4, 1, 6, 0, 2 and no extras totals runs 13, wickets 0. -/
theorem claim_C5_reducer_fold :
    (∀ mid bat bowl inn rows irow,
      reduceInning mid bat bowl inn = some (rows, irow) →
      ∃ fs : List EventFields,
        inn.deliveries.mapM (fun t => processEvent t.2.2) = some fs ∧
        irow.runs = (fs.map (fun f => f.rtotN)).sum ∧
        irow.wickets = (fs.map (fun f => f.wicket_flag)).sum ∧
        rows.length = inn.deliveries.length ∧
        ∃ a b : Int,
          asNum (orZero (lastNN (.int 0) (inn.deliveries.map (fun t => t.1))))
            = some a ∧
          asNum (orZero (lastNN (.int 0) (inn.deliveries.map (fun t => t.2.1))))
            = some b ∧
          irow.overs = some ((a : ℚ) + (b : ℚ) / 6)) ∧
    (reduceInning (.str "m") (.str "T") (.str "U") inn13).map
        (fun x => (x.2.runs, x.2.wickets)) = some (13, 0) := by
  refine ⟨fun mid bat bowl inn rows irow h => ?_, rfl⟩
  unfold reduceInning at h
  obtain ⟨five, hfive, h⟩ := Option.bind_eq_some.mp h
  obtain ⟨rows1, runs1, wkts1, lo1, lb1⟩ := five
  dsimp only at h
  obtain ⟨ov, hov, h⟩ := Option.bind_eq_some.mp h
  simp only [Option.pure_def, Option.some.injEq, Prod.mk.injEq] at h
  obtain ⟨hrows, hirow⟩ := h
  obtain ⟨fs, hm, hR, hW, hLO, hLB, hlen⟩ :=
    reduceDeliveries_spec mid inn.inning_number bat bowl inn.deliveries
      0 0 (.int 0) (.int 0) rows1 runs1 wkts1 lo1 lb1 hfive
  subst hLO; subst hLB
  unfold oversOf at hov
  have hn1 := lastNN_not_null (inn.deliveries.map (fun t => t.1)) (J.int 0) rfl
  have hn2 := lastNN_not_null (inn.deliveries.map (fun t => t.2.1)) (J.int 0) rfl
  rw [if_pos (by rw [hn1, hn2]; rfl)] at hov
  obtain ⟨a, ha, hov⟩ := Option.bind_eq_some.mp hov
  obtain ⟨b, hb, hov⟩ := Option.bind_eq_some.mp hov
  simp only [Option.pure_def, Option.some.injEq] at hov
  refine ⟨fs, hm, ?_, ?_, ?_, a, b, ha, hb, ?_⟩
  · rw [← hirow]; simpa using hR
  · rw [← hirow]; simpa using hW
  · rw [← hrows]; exact hlen
  · rw [← hirow, ← hov]

theorem claim_C5_witness :
    ∃ fs : List EventFields,
      innEmpty.deliveries.mapM (fun t => processEvent t.2.2) = some fs ∧
      irowEmpty.runs = (fs.map (fun f => f.rtotN)).sum ∧
      irowEmpty.wickets = (fs.map (fun f => f.wicket_flag)).sum ∧
      ([] : List DeliveryRow).length = innEmpty.deliveries.length ∧
      ∃ a b : Int,
        asNum (orZero (lastNN (.int 0) (innEmpty.deliveries.map (fun t => t.1))))
          = some a ∧
        asNum (orZero (lastNN (.int 0) (innEmpty.deliveries.map (fun t => t.2.1))))
          = some b ∧
        irowEmpty.overs = some ((a : ℚ) + (b : ℚ) / 6) :=
  claim_C5_reducer_fold.1 (.str "m") (.str "A") (.str "B") innEmpty []
    irowEmpty rfl

lemma reduceInning_overs (mid bat bowl : J) (inn : NormInning)
    (out : List DeliveryRow × InningsRow)
    (h : reduceInning mid bat bowl inn = some out) :
    out.2.overs.isSome = true := by
  unfold reduceInning at h
  obtain ⟨five, hfive, h⟩ := Option.bind_eq_some.mp h
  obtain ⟨rows1, runs1, wkts1, lo1, lb1⟩ := five
  dsimp only at h
  obtain ⟨ov, hov, h⟩ := Option.bind_eq_some.mp h
  simp only [Option.pure_def, Option.some.injEq] at h
  obtain ⟨fs, hm, hR, hW, hLO, hLB, hlen⟩ :=
    reduceDeliveries_spec mid inn.inning_number bat bowl inn.deliveries
      0 0 (.int 0) (.int 0) rows1 runs1 wkts1 lo1 lb1 hfive
  have hlo : lo1.isNull = false := by
    rw [hLO]; exact lastNN_not_null _ (J.int 0) rfl
  have hlb : lb1.isNull = false := by
    rw [hLB]; exact lastNN_not_null _ (J.int 0) rfl
  rw [← h]
  exact oversOf_some lo1 lb1 hlo hlb ov hov

lemma reduceAll_overs (mid t1 t2 : J) :
    ∀ (norm : List NormInning) irs drs,
      reduceAll mid t1 t2 norm = some (irs, drs) →
      ∀ r ∈ irs, r.overs.isSome = true := by
  intro norm
  induction norm with
  | nil =>
    intro irs drs h r hr
    simp only [reduceAll, Option.some.injEq, Prod.mk.injEq] at h
    rw [← h.1] at hr
    simp at hr
  | cons inn rest ih =>
    intro irs drs h r hr
    simp only [reduceAll, Option.bind_eq_bind, Option.bind_eq_some,
      Option.pure_def, Option.some.injEq] at h
    obtain ⟨out, hout, h⟩ := h
    obtain ⟨rows, irow⟩ := out
    dsimp only at h
    obtain ⟨prest, hprest, h⟩ := h
    obtain ⟨irs2, drs2⟩ := prest
    dsimp only at h
    simp only [Prod.mk.injEq] at h
    obtain ⟨hirs, _⟩ := h
    rw [← hirs] at hr
    rcases List.mem_cons.mp hr with h1 | h1
    · subst h1
      exact reduceInning_overs _ _ _ _ _ hout
    · exact ih irs2 drs2 hprest r h1

/-- C10: for every successfully parsed match, every Innings row has a
non-null overs value — the `None` branch of the overs computation is
unreachable because `last_over` / `last_ball` start at 0 and are only ever
replaced by non-null values — and an inning with zero deliveries yields
overs `0 + 0/6 = 0.0` rather than an absent value. -/
theorem claim_C10_overs_defined :
    (∀ j p out, parse_match_json j p = some out →
      ∀ r ∈ out.2.1, r.overs.isSome = true) ∧
    (∀ mid bat bowl t k,
      reduceInning mid bat bowl
          { inning_number := k, team := t, deliveries := [] }
        = some ([], { match_id := mid, inning_number := k,
                      batting_team := bat, bowling_team := bowl, runs := 0,
                      wickets := 0, overs := some (0 + 0 / 6) })) ∧
    ((0 : ℚ) + 0 / 6 = 0) := by
  refine ⟨fun j p out h => ?_, fun mid bat bowl t k => rfl, by norm_num⟩
  obtain ⟨m, irs, drs⟩ := out
  obtain ⟨info, norm, _, _, hra⟩ := parse_match_json_parts j p m irs drs h
  exact reduceAll_overs m.match_id m.team1 m.team2 norm irs drs hra

theorem claim_C10_witness : c10irow.overs.isSome = true :=
  claim_C10_overs_defined.1 c10rec "m" (c10m, [c10irow], []) rfl c10irow
    (by simp)

lemma extrasType_spec (ex et : J) (h : extrasTypeOf ex = some et) :
    (jTruthy ex = false → et = J.null) ∧
    (jTruthy ex = true → ∃ k v r, ex = J.obj ((k, v) :: r) ∧ et = J.str k) := by
  unfold extrasTypeOf at h
  split at h
  · next hc =>
    obtain ⟨ekvs, hek, h⟩ := Option.bind_eq_some.mp h
    simp only [Option.pure_def, Option.some.injEq] at h
    subst h
    cases ex with
    | obj kvs =>
      simp only [asObj, Option.some.injEq] at hek
      subst hek
      cases kvs with
      | nil => simp [jTruthy] at hc
      | cons kv r =>
        obtain ⟨k, v⟩ := kv
        refine ⟨fun hf => ?_, fun _ => ⟨k, v, r, rfl, rfl⟩⟩
        rw [hc] at hf
        cases hf
    | null => exact Option.noConfusion hek
    | bool b => exact Option.noConfusion hek
    | int n => exact Option.noConfusion hek
    | str s => exact Option.noConfusion hek
    | list xs => exact Option.noConfusion hek
  · next hc =>
    simp only [Option.pure_def, Option.some.injEq] at h
    subst h
    simp only [Bool.not_eq_true] at hc
    exact ⟨fun _ => rfl, fun ht => by rw [hc] at ht; cases ht⟩

lemma wicketRes_spec (w : J) (wres : Nat × J × J)
    (h : wicketResOf w = some wres) :
    (∀ wk r, w = J.list (wk :: r) →
      wres.1 = 1 ∧ ∃ wkKvs, wk = J.obj wkKvs ∧
        wres.2.1 = (jFind "kind" wkKvs).getD .null ∧
        wres.2.2 = (jFind "player_out" wkKvs).getD .null) ∧
    (isNonemptyList w = false →
      wres.1 = 0 ∧ wres.2.1 = J.null ∧ wres.2.2 = J.null) := by
  unfold wicketResOf at h
  cases w with
  | list xs =>
    cases xs with
    | nil =>
      simp only [Option.pure_def, Option.some.injEq] at h
      subst h
      refine ⟨fun wk r hw => ?_, fun _ => ⟨rfl, rfl, rfl⟩⟩
      simp at hw
    | cons wk rest =>
      obtain ⟨kind, hkind, h⟩ := Option.bind_eq_some.mp h
      obtain ⟨pout, hpout, h⟩ := Option.bind_eq_some.mp h
      simp only [Option.pure_def, Option.some.injEq] at h
      subst h
      cases wk with
      | obj wkKvs =>
        simp only [jGet, Option.some.injEq] at hkind hpout
        subst hkind
        subst hpout
        refine ⟨fun wk2 r2 hw => ?_,
          fun hne => by simp [isNonemptyList] at hne⟩
        simp only [J.list.injEq, List.cons.injEq] at hw
        obtain ⟨hwk, _⟩ := hw
        refine ⟨rfl, wkKvs, by rw [hwk], rfl, rfl⟩
      | null => exact Option.noConfusion hkind
      | bool b => exact Option.noConfusion hkind
      | int n => exact Option.noConfusion hkind
      | str s => exact Option.noConfusion hkind
      | list ys => exact Option.noConfusion hkind
  | null =>
    simp only [Option.pure_def, Option.some.injEq] at h
    subst h
    exact ⟨fun wk r hw => J.noConfusion hw, fun _ => ⟨rfl, rfl, rfl⟩⟩
  | bool b =>
    simp only [Option.pure_def, Option.some.injEq] at h
    subst h
    exact ⟨fun wk r hw => J.noConfusion hw, fun _ => ⟨rfl, rfl, rfl⟩⟩
  | int n =>
    simp only [Option.pure_def, Option.some.injEq] at h
    subst h
    exact ⟨fun wk r hw => J.noConfusion hw, fun _ => ⟨rfl, rfl, rfl⟩⟩
  | str s =>
    simp only [Option.pure_def, Option.some.injEq] at h
    subst h
    exact ⟨fun wk r hw => J.noConfusion hw, fun _ => ⟨rfl, rfl, rfl⟩⟩
  | obj kvs =>
    simp only [Option.pure_def, Option.some.injEq] at h
    subst h
    exact ⟨fun wk r hw => J.noConfusion hw, fun _ => ⟨rfl, rfl, rfl⟩⟩

/-- C4 amended: for every delivery event the Event Reducer processes
successfully: `runs_batter` / `runs_extras` default to 0 when absent;
`runs_total` is the event's explicit total when present and otherwise the
sum of the two; `extras_type` is the first key when the extras value is
truthy (in which case it must be a non-empty mapping) and null otherwise;
and the wicket fields follow the `or`-chain `wickets or wicket`: a wicket
is recorded, with kind and dismissed player taken from the first list
entry and a wicket-count contribution of exactly 1, exactly when that
chain's value is a non-empty list — so a truthy non-list `wickets` value
suppresses a well-formed `wicket` list, contrary to the claim's
"either field present as a non-empty list". -/
theorem claim_C4_amended :
    ∀ ev f, processEvent ev = some f →
      ∃ kvs, ev = J.obj kvs ∧
        (∃ runsKvs,
          jOr ((jFind "runs" kvs).getD .null) (.obj []) = J.obj runsKvs ∧
          (jFind "batter" runsKvs = none → f.rb = .int 0) ∧
          (jFind "extras" runsKvs = none → f.rext = .int 0) ∧
          (∀ v, jFind "total" runsKvs = some v → f.rtot = v) ∧
          (jFind "total" runsKvs = none →
            ∃ a b, asNum f.rb = some a ∧ asNum f.rext = some b ∧
              f.rtot = .int (a + b))) ∧
        ((jTruthy (jOr ((jFind "extras" kvs).getD .null) (.obj [])) = false →
            f.extras_type = J.null) ∧
          (jTruthy (jOr ((jFind "extras" kvs).getD .null) (.obj [])) = true →
            ∃ k v r, jOr ((jFind "extras" kvs).getD .null) (.obj [])
                = J.obj ((k, v) :: r) ∧ f.extras_type = J.str k)) ∧
        ((∀ wk r, jOr ((jFind "wickets" kvs).getD .null)
              ((jFind "wicket" kvs).getD .null) = J.list (wk :: r) →
            f.wicket_flag = 1 ∧ ∃ wkKvs, wk = J.obj wkKvs ∧
              f.wicket_kind = (jFind "kind" wkKvs).getD .null ∧
              f.player_out = (jFind "player_out" wkKvs).getD .null) ∧
          (isNonemptyList (jOr ((jFind "wickets" kvs).getD .null)
              ((jFind "wicket" kvs).getD .null)) = false →
            f.wicket_flag = 0 ∧ f.wicket_kind = J.null ∧
              f.player_out = J.null)) := by
  intro ev f h
  unfold processEvent at h
  cases ev with
  | null => exact Option.noConfusion h
  | bool b => exact Option.noConfusion h
  | int n => exact Option.noConfusion h
  | str s => exact Option.noConfusion h
  | list xs => exact Option.noConfusion h
  | obj kvs =>
    obtain ⟨rr, hrr, h⟩ := Option.bind_eq_some.mp h
    simp only [jGet, Option.some.injEq] at hrr
    subst hrr
    obtain ⟨rb, hrb, h⟩ := Option.bind_eq_some.mp h
    obtain ⟨rext, hrext, h⟩ := Option.bind_eq_some.mp h
    obtain ⟨rbN, hrbN, h⟩ := Option.bind_eq_some.mp h
    obtain ⟨rextN, hrextN, h⟩ := Option.bind_eq_some.mp h
    obtain ⟨rtot, hrtot, h⟩ := Option.bind_eq_some.mp h
    obtain ⟨er, her, h⟩ := Option.bind_eq_some.mp h
    simp only [jGet, Option.some.injEq] at her
    subst her
    obtain ⟨et, het, h⟩ := Option.bind_eq_some.mp h
    obtain ⟨w1, hw1, h⟩ := Option.bind_eq_some.mp h
    simp only [jGet, Option.some.injEq] at hw1
    subst hw1
    obtain ⟨w2, hw2, h⟩ := Option.bind_eq_some.mp h
    simp only [jGet, Option.some.injEq] at hw2
    subst hw2
    obtain ⟨wres, hwres, h⟩ := Option.bind_eq_some.mp h
    obtain ⟨bat, hbat, h⟩ := Option.bind_eq_some.mp h
    obtain ⟨bwl, hbwl, h⟩ := Option.bind_eq_some.mp h
    obtain ⟨nst, hnst, h⟩ := Option.bind_eq_some.mp h
    obtain ⟨rtotN, hrtotN, h⟩ := Option.bind_eq_some.mp h
    simp only [Option.pure_def, Option.some.injEq] at h
    subst h
    cases hro : jOr ((jFind "runs" kvs).getD .null) (.obj []) with
    | obj runsKvs =>
      rw [hro] at hrb hrext hrtot
      simp only [jGetD, Option.some.injEq] at hrb hrext hrtot
      subst hrb
      subst hrext
      subst hrtot
      have hex := extrasType_spec _ et het
      have hws := wicketRes_spec _ wres hwres
      refine ⟨kvs, rfl, ⟨runsKvs, hro, ?_, ?_, ?_, ?_⟩,
        ⟨fun hf => hex.1 hf, fun ht => hex.2 ht⟩,
        ⟨fun wk r hw => hws.1 wk r hw, fun hne => hws.2 hne⟩⟩
      · intro hnone
        simp [hnone]
      · intro hnone
        simp [hnone]
      · intro v hv
        simp [hv]
      · intro hnone
        refine ⟨rbN, rextN, hrbN, hrextN, ?_⟩
        simp [hnone]
    | null => rw [hro] at hrb; exact Option.noConfusion hrb
    | bool b => rw [hro] at hrb; exact Option.noConfusion hrb
    | int n => rw [hro] at hrb; exact Option.noConfusion hrb
    | str s => rw [hro] at hrb; exact Option.noConfusion hrb
    | list xs => rw [hro] at hrb; exact Option.noConfusion hrb

/-- C4 counterexample: an event whose `wickets` field is the truthy
non-list `"c"` while its `wicket` field is a non-empty list with
`kind = "bowled"`.  The claim requires a recorded wicket (flag 1, kind
`"bowled"`); the code records none. -/
theorem claim_C4_counterexample :
    (processEvent c4ev).map
        (fun f => (f.wicket_flag, f.wicket_kind.isNull, f.player_out.isNull))
      = some (0, true, true) := rfl

theorem claim_C4_witness :
    ∃ kvs, J.obj [] = J.obj kvs ∧
      (∃ runsKvs,
        jOr ((jFind "runs" kvs).getD .null) (.obj []) = J.obj runsKvs ∧
        (jFind "batter" runsKvs = none → evFieldsEmpty.rb = .int 0) ∧
        (jFind "extras" runsKvs = none → evFieldsEmpty.rext = .int 0) ∧
        (∀ v, jFind "total" runsKvs = some v → evFieldsEmpty.rtot = v) ∧
        (jFind "total" runsKvs = none →
          ∃ a b, asNum evFieldsEmpty.rb = some a ∧
            asNum evFieldsEmpty.rext = some b ∧
            evFieldsEmpty.rtot = .int (a + b))) ∧
      ((jTruthy (jOr ((jFind "extras" kvs).getD .null) (.obj [])) = false →
          evFieldsEmpty.extras_type = J.null) ∧
        (jTruthy (jOr ((jFind "extras" kvs).getD .null) (.obj [])) = true →
          ∃ k v r, jOr ((jFind "extras" kvs).getD .null) (.obj [])
              = J.obj ((k, v) :: r) ∧ evFieldsEmpty.extras_type = J.str k)) ∧
      ((∀ wk r, jOr ((jFind "wickets" kvs).getD .null)
            ((jFind "wicket" kvs).getD .null) = J.list (wk :: r) →
          evFieldsEmpty.wicket_flag = 1 ∧ ∃ wkKvs, wk = J.obj wkKvs ∧
            evFieldsEmpty.wicket_kind = (jFind "kind" wkKvs).getD .null ∧
            evFieldsEmpty.player_out = (jFind "player_out" wkKvs).getD .null) ∧
        (isNonemptyList (jOr ((jFind "wickets" kvs).getD .null)
            ((jFind "wicket" kvs).getD .null)) = false →
          evFieldsEmpty.wicket_flag = 0 ∧
            evFieldsEmpty.wicket_kind = J.null ∧
            evFieldsEmpty.player_out = J.null)) :=
  claim_C4_amended (J.obj []) evFieldsEmpty rfl

lemma digitChar_lt10 : ∀ d, d < 10 →
    ((digitChar d).isDigit = true ∧ digitChar d ≠ '.' ∧ digitChar d ≠ '_' ∧
      digitChar d ≠ '+' ∧ digitChar d ≠ '-' ∧ isPyWs (digitChar d) = false ∧
      (digitChar d).toNat - 48 = d) := by decide

lemma natReprChars_ne_nil (n : Nat) : natReprChars n ≠ [] := by
  unfold natReprChars
  split
  · simp
  · next h0 =>
    simp [Nat.digits_ne_nil_iff_ne_zero.mpr h0]

lemma mem_natReprChars (n : Nat) :
    ∀ c ∈ natReprChars n, ∃ d, d < 10 ∧ c = digitChar d := by
  intro c hc
  unfold natReprChars at hc
  split at hc
  · simp only [List.mem_singleton] at hc
    exact ⟨0, by norm_num, hc⟩
  · rw [List.mem_reverse, List.mem_map] at hc
    obtain ⟨d, hd, hcd⟩ := hc
    exact ⟨d, Nat.digits_lt_base (by norm_num) hd, hcd.symm⟩

lemma dropWhile_all_false {p : Char → Bool} :
    ∀ cs : List Char, (∀ c ∈ cs, p c = false) → cs.dropWhile p = cs := by
  intro cs h
  cases cs with
  | nil => rfl
  | cons a t =>
    rw [List.dropWhile_cons, h a (List.mem_cons_self a t)]
    simp

lemma pyStrip_all (cs : List Char) (h : ∀ c ∈ cs, isPyWs c = false) :
    pyStrip cs = cs := by
  unfold pyStrip
  rw [dropWhile_all_false cs h,
    dropWhile_all_false cs.reverse (fun c hc => h c (List.mem_reverse.mp hc)),
    List.reverse_reverse]

lemma tailDigitsOk_all :
    ∀ cs : List Char, (∀ c ∈ cs, c.isDigit = true ∧ c ≠ '_') →
      tailDigitsOk cs = true := by
  intro cs
  induction cs with
  | nil => intro _; rfl
  | cons c rest ih =>
    intro h
    have hc := h c (List.mem_cons_self c rest)
    unfold tailDigitsOk
    rw [if_neg hc.2, hc.1, ih (fun x hx => h x (List.mem_cons_of_mem c hx))]
    rfl

lemma digitsOk_all (cs : List Char) (hne : cs ≠ [])
    (h : ∀ c ∈ cs, c.isDigit = true ∧ c ≠ '_') : digitsOk cs = true := by
  cases cs with
  | nil => exact absurd rfl hne
  | cons c rest =>
    unfold digitsOk
    dsimp only
    rw [(h c (List.mem_cons_self c rest)).1,
      tailDigitsOk_all rest (fun x hx => h x (List.mem_cons_of_mem c hx))]
    rfl

lemma foldl_mul10 : ∀ (L : List Nat) (a : Nat),
    L.foldl (fun x d => x * 10 + d) a
      = a * 10 ^ L.length + Nat.ofDigits 10 L.reverse := by
  intro L
  induction L with
  | nil => intro a; simp [Nat.ofDigits]
  | cons d t ih =>
    intro a
    rw [List.foldl_cons, ih (a * 10 + d), List.reverse_cons,
      Nat.ofDigits_append, Nat.ofDigits_singleton, List.length_reverse,
      List.length_cons]
    ring

lemma foldl_digitChar : ∀ L : List Nat, (∀ d ∈ L, d < 10) → ∀ a : Nat,
    (L.map digitChar).foldl (fun x c => x * 10 + (c.toNat - 48)) a
      = L.foldl (fun x d => x * 10 + d) a := by
  intro L
  induction L with
  | nil => intro _ a; rfl
  | cons d t ih =>
    intro h a
    simp only [List.map_cons, List.foldl_cons]
    rw [(digitChar_lt10 d (h d (List.mem_cons_self d t))).2.2.2.2.2.2]
    exact ih (fun x hx => h x (List.mem_cons_of_mem d hx)) _

lemma digitsVal_natReprChars (n : Nat) : digitsVal (natReprChars n) = n := by
  have hfil : (natReprChars n).filter (fun c => c ≠ '_') = natReprChars n := by
    rw [List.filter_eq_self]
    intro c hc
    obtain ⟨d, hd, hcd⟩ := mem_natReprChars n c hc
    subst hcd
    simp [(digitChar_lt10 d hd).2.2.1]
  unfold digitsVal
  rw [hfil]
  unfold natReprChars
  split
  · next h0 => subst h0; rfl
  · next h0 =>
    rw [← List.map_reverse]
    rw [foldl_digitChar ((Nat.digits 10 n).reverse)
      (fun d hd => Nat.digits_lt_base (by norm_num) (List.mem_reverse.mp hd)) 0]
    rw [foldl_mul10]
    simp [Nat.ofDigits_digits]

lemma pyIntL_natReprChars (n : Nat) :
    pyIntL (natReprChars n) = some (Int.ofNat n) := by
  have hprops : ∀ c ∈ natReprChars n,
      c.isDigit = true ∧ c ≠ '_' ∧ c ≠ '+' ∧ c ≠ '-' ∧ isPyWs c = false := by
    intro c hc
    obtain ⟨d, hd, hcd⟩ := mem_natReprChars n c hc
    subst hcd
    obtain ⟨h1, _, h3, h4, h5, h6, _⟩ := digitChar_lt10 d hd
    exact ⟨h1, h3, h4, h5, h6⟩
  unfold pyIntL
  rw [pyStrip_all _ (fun c hc => (hprops c hc).2.2.2.2)]
  obtain ⟨c, rest, hcr⟩ := List.exists_cons_of_ne_nil (natReprChars_ne_nil n)
  rw [hcr]
  have hcmem : c ∈ natReprChars n := by rw [hcr]; exact List.mem_cons_self c rest
  dsimp only
  rw [if_neg (hprops c hcmem).2.2.1, if_neg (hprops c hcmem).2.2.2.1, ← hcr]
  unfold parseDigits
  rw [digitsOk_all _ (natReprChars_ne_nil n)
    (fun x hx => ⟨(hprops x hx).1, (hprops x hx).2.1⟩)]
  simp [digitsVal_natReprChars]

lemma contains_append_dot :
    ∀ A B : List Char, (A ++ '.' :: B).contains '.' = true := by
  intro A B
  induction A with
  | nil => rfl
  | cons c A2 ih =>
    simp only [List.cons_append, List.contains_cons, ih, Bool.or_true]

lemma splitDot_ne_nil : ∀ cs : List Char, splitDot cs ≠ [] := by
  intro cs
  induction cs with
  | nil => simp [splitDot]
  | cons c rest ih =>
    unfold splitDot
    split
    · simp
    · cases h : splitDot rest <;> simp

lemma splitDot_no_dot :
    ∀ cs : List Char, (∀ c ∈ cs, c ≠ '.') → splitDot cs = [cs] := by
  intro cs
  induction cs with
  | nil => intro _; rfl
  | cons c rest ih =>
    intro h
    unfold splitDot
    rw [if_neg (h c (List.mem_cons_self c rest)),
      ih (fun x hx => h x (List.mem_cons_of_mem c hx))]

lemma splitDot_append (B : List Char) :
    ∀ A : List Char, (∀ c ∈ A, c ≠ '.') →
      splitDot (A ++ '.' :: B) = A :: splitDot B := by
  intro A
  induction A with
  | nil =>
    intro _
    simp [splitDot]
  | cons c A2 ih =>
    intro h
    simp only [List.cons_append]
    conv_lhs => rw [splitDot]
    rw [if_neg (h c (List.mem_cons_self c A2)),
      ih (fun x hx => h x (List.mem_cons_of_mem c hx))]

lemma natReprChars_no_dot (n : Nat) : ∀ c ∈ natReprChars n, c ≠ '.' := by
  intro c hc
  obtain ⟨d, hd, hcd⟩ := mem_natReprChars n c hc
  subst hcd
  exact (digitChar_lt10 d hd).2.1

lemma split_over_ball_label (o i : Nat) :
    split_over_ball (mkLabel o i) = (some (Int.ofNat o), some (Int.ofNat i)) := by
  unfold split_over_ball mkLabel
  have hdata : (String.mk (natReprChars o ++ '.' :: natReprChars i)).data
      = natReprChars o ++ '.' :: natReprChars i := rfl
  rw [hdata, if_pos (contains_append_dot (natReprChars o) (natReprChars i)),
    splitDot_append _ _ (natReprChars_no_dot o),
    splitDot_no_dot _ (natReprChars_no_dot i)]
  dsimp only
  rw [pyIntL_natReprChars, pyIntL_natReprChars]
  rfl

lemma enumFrom_natCast (xs : List J) : ∀ i : Nat,
    enumFrom (Int.ofNat i) xs
      = (enumNatFrom i xs).map (fun p => (Int.ofNat p.1, p.2)) := by
  induction xs with
  | nil => intro i; rfl
  | cons x rest ih =>
    intro i
    show (Int.ofNat i, x) :: enumFrom (Int.ofNat i + 1) rest = _
    rw [show Int.ofNat i + 1 = Int.ofNat (i + 1) from rfl, ih (i + 1)]
    rfl

lemma v1Deliveries_append : ∀ xs ys : List J,
    v1Deliveries (xs ++ ys) = v1Deliveries xs ++ v1Deliveries ys := by
  intro xs ys
  induction xs with
  | nil => rfl
  | cons e rest ih =>
    cases e with
    | obj kvs =>
      cases kvs with
      | nil => simpa [v1Deliveries] using ih
      | cons kv t =>
        obtain ⟨k, v⟩ := kv
        simpa [v1Deliveries] using ih
    | null => simpa [v1Deliveries] using ih
    | bool b => simpa [v1Deliveries] using ih
    | int n => simpa [v1Deliveries] using ih
    | str s => simpa [v1Deliveries] using ih
    | list zs => simpa [v1Deliveries] using ih

lemma v1Deliveries_over (o : Nat) (evs : List J) : ∀ i : Nat,
    v1Deliveries ((enumNatFrom i evs).map
        (fun p => J.obj [(mkLabel o p.1, p.2)]))
      = (enumNatFrom i evs).map
          (fun p => (J.int (Int.ofNat o), J.int (Int.ofNat p.1), p.2)) := by
  induction evs with
  | nil => intro i; rfl
  | cons ev rest ih =>
    intro i
    show v1Deliveries (J.obj [(mkLabel o i, ev)] :: _) = _
    unfold v1Deliveries
    dsimp only
    rw [split_over_ball_label, ih (i + 1)]
    rfl

lemma v1Deliveries_enc (overs : List (Nat × List J)) :
    v1Deliveries (overs.flatMap (fun ob =>
        (enumNatFrom 1 ob.2).map (fun p => J.obj [(mkLabel ob.1 p.1, p.2)])))
      = normDelivsOf overs := by
  induction overs with
  | nil => rfl
  | cons ob rest ih =>
    obtain ⟨o, evs⟩ := ob
    simp only [List.flatMap_cons]
    rw [v1Deliveries_append, v1Deliveries_over o evs 1, ih]
    rfl

lemma v2Deliveries_enc (overs : List (Nat × List J)) :
    v2Deliveries (overs.map (fun ob =>
        J.obj [("over", .int (Int.ofNat ob.1)), ("deliveries", .list ob.2)]))
      = some (normDelivsOf overs) := by
  induction overs with
  | nil => rfl
  | cons ob rest ih =>
    obtain ⟨o, evs⟩ := ob
    show v2Deliveries (J.obj [("over", _), ("deliveries", _)] :: _) = _
    unfold v2Deliveries
    rw [ih]
    have henum : (enumFrom 1 evs).map
        (fun p => (J.int (Int.ofNat o), J.int p.1, p.2))
        = (enumNatFrom 1 evs).map
            (fun p => (J.int (Int.ofNat o), J.int (Int.ofNat p.1), p.2)) := by
      rw [show (1 : Int) = Int.ofNat 1 from rfl, enumFrom_natCast evs 1,
        List.map_map]
      rfl
    show some (((enumFrom 1 evs).map
        (fun p => (J.int (Int.ofNat o), J.int p.1, p.2))) ++ normDelivsOf rest)
        = _
    rw [henum]
    rfl

lemma parseV1From_enc (L : List (J × List (Nat × List J))) : ∀ idx,
    parseV1From idx (L.map encInnA) = some (normFrom idx L) := by
  induction L with
  | nil => intro idx; rfl
  | cons inn rest ih =>
    intro idx
    obtain ⟨team, overs⟩ := inn
    rw [show parseV1From idx (((team, overs) :: rest).map encInnA)
        = (parseV1From (idx + 1) (rest.map encInnA)).bind
            (fun rest2 => some (NormInning.mk idx team
              (v1Deliveries (overs.flatMap (fun ob =>
                (enumNatFrom 1 ob.2).map
                  (fun p => J.obj [(mkLabel ob.1 p.1, p.2)])))) :: rest2))
      from rfl]
    rw [ih (idx + 1), v1Deliveries_enc]
    rfl

lemma parseV2From_enc (L : List (J × List (Nat × List J))) : ∀ idx,
    parseV2From idx (L.map encInnB) = some (normFrom idx L) := by
  induction L with
  | nil => intro idx; rfl
  | cons inn rest ih =>
    intro idx
    obtain ⟨team, overs⟩ := inn
    rw [show parseV2From idx (((team, overs) :: rest).map encInnB)
        = (v2Deliveries (overs.map (fun ob =>
            J.obj [("over", .int (Int.ofNat ob.1)),
                   ("deliveries", .list ob.2)]))).bind
            (fun ds => (parseV2From (idx + 1) (rest.map encInnB)).bind
              (fun rest2 => some (NormInning.mk idx team ds :: rest2)))
      from rfl]
    rw [v2Deliveries_enc, ih (idx + 1)]
    rfl

lemma detect_encA (L : List (J × List (Nat × List J))) :
    detect_and_parse_innings (J.list (encodeA L)) = some (normFrom 1 L) := by
  cases L with
  | nil => rfl
  | cons inn rest =>
    obtain ⟨team, overs⟩ := inn
    rw [show detect_and_parse_innings (J.list (encodeA ((team, overs) :: rest)))
        = parseV1From 1 (((team, overs) :: rest).map encInnA) from rfl]
    exact parseV1From_enc _ 1

lemma detect_encB (L : List (J × List (Nat × List J))) :
    detect_and_parse_innings (J.list (encodeB L)) = some (normFrom 1 L) := by
  cases L with
  | nil => rfl
  | cons inn rest =>
    obtain ⟨team, overs⟩ := inn
    rw [show detect_and_parse_innings (J.list (encodeB ((team, overs) :: rest)))
        = parseV2From 1 (((team, overs) :: rest).map encInnB) from rfl]
    exact parseV2From_enc _ 1

lemma parse_enc_eq (info : J) (L : List (J × List (Nat × List J)))
    (p : String) :
    parse_match_json (mkRecord info (encodeA L)) p
      = parse_match_json (mkRecord info (encodeB L)) p := by
  have hA : parse_match_json (mkRecord info (encodeA L)) p
      = (extractMatchRow info p).bind (fun mr =>
          (detect_and_parse_innings (J.list (encodeA L))).bind (fun norm =>
            (reduceAll mr.match_id mr.team1 mr.team2 norm).bind (fun pr =>
              some (mr, pr.1, pr.2)))) := rfl
  have hB : parse_match_json (mkRecord info (encodeB L)) p
      = (extractMatchRow info p).bind (fun mr =>
          (detect_and_parse_innings (J.list (encodeB L))).bind (fun norm =>
            (reduceAll mr.match_id mr.team1 mr.team2 norm).bind (fun pr =>
              some (mr, pr.1, pr.2)))) := rfl
  rw [hA, hB, detect_encA, detect_encB]

/-- C1: for every logical match — any list of innings, each a team value
with over blocks of raw events — the Dialect A encoding (flat, ball-label
keys `"over.ball"` with balls numbered from 1 per over) and the Dialect B
encoding (structured over blocks) produce, through the full record-to-rows
transform, the same per-inning (number, cumulative runs, cumulative
wickets) triples and the same per-inning Delivery row counts (via the
delivery rows' inning numbers), for any `info` object and path.  The two
parses are in fact equal outputs. -/
theorem claim_C1_dialect_independence (info : J)
    (L : List (J × List (Nat × List J))) (p : String) :
    (parse_match_json (mkRecord info (encodeA L)) p).map summaryFn
      = (parse_match_json (mkRecord info (encodeB L)) p).map summaryFn := by
  rw [parse_enc_eq]
